import Mathlib

/-!
Verification development for the CV scoring and structuring service.

The definitions below are a shallow embedding of the Python source:
numeric scores are modelled as rationals, text as strings or character
lists, and the external collaborators (the regression model, the
generative-language-model API, the JSON decoder, the date parser of the
standard library) as explicit oracle parameters.  Stateful endpoints are
modelled as pure functions of their inputs and oracle outcomes.
-/

namespace CVMaker

/-- Character-wise ASCII lowering, the model of the Python `str.lower()`
calls on the ASCII data handled by this service. -/
def pyLower (s : String) : List Char :=
  s.toList.map Char.toLower

/-- Strip leading and trailing whitespace from a character list. -/
def stripWS (l : List Char) : List Char :=
  ((l.dropWhile Char.isWhitespace).reverse.dropWhile Char.isWhitespace).reverse

/-- Model of Python `str.strip()` with no argument. -/
def pyStrip (s : String) : String :=
  String.mk (stripWS s.toList)

/-- Round a rational to the nearest integer, ties to the even integer;
this is the rounding used by the Python builtin `round`. -/
def roundHE (q : ℚ) : Int :=
  if q - (⌊q⌋ : ℚ) < 1/2 then ⌊q⌋
  else if (1/2 : ℚ) < q - (⌊q⌋ : ℚ) then ⌊q⌋ + 1
  else if ⌊q⌋ % 2 = 0 then ⌊q⌋ else ⌊q⌋ + 1

/-- Model of Python `round(q, 2)`. -/
def round2 (q : ℚ) : ℚ :=
  (roundHE (q * 100) : ℚ) / 100

lemma floor_le_roundHE (q : ℚ) : ⌊q⌋ ≤ roundHE q := by
  unfold roundHE; split_ifs <;> omega

lemma roundHE_le_floor_add_one (q : ℚ) : roundHE q ≤ ⌊q⌋ + 1 := by
  unfold roundHE; split_ifs <;> omega

lemma roundHE_mono {x y : ℚ} (h : x ≤ y) : roundHE x ≤ roundHE y := by
  have hf : ⌊x⌋ ≤ ⌊y⌋ := Int.floor_mono h
  rcases eq_or_lt_of_le hf with heq | hlt
  · have hr2 : x - (⌊x⌋ : ℚ) ≤ y - (⌊x⌋ : ℚ) := by linarith
    unfold roundHE
    rw [← heq]
    split_ifs <;> first | omega | (exfalso; linarith)
  · calc roundHE x ≤ ⌊x⌋ + 1 := roundHE_le_floor_add_one x
      _ ≤ ⌊y⌋ := by omega
      _ ≤ roundHE y := floor_le_roundHE y

lemma round2_mono {x y : ℚ} (h : x ≤ y) : round2 x ≤ round2 y := by
  unfold round2
  have h1 : roundHE (x * 100) ≤ roundHE (y * 100) := roundHE_mono (by linarith)
  have h2 : ((roundHE (x * 100) : ℚ)) ≤ ((roundHE (y * 100) : ℚ)) := by
    exact_mod_cast h1
  linarith

/-! ## Section scoring (endpoint `cv.py`) -/

/-- One grammar error reported by the proofreading call. -/
structure GrammarError where
  location : String
  type : String
  description : String
  suggestion : String
deriving DecidableEq

/-- One improvement suggestion reported by the consultant call. -/
structure Suggestion where
  issue : String
  suggestion : String
deriving DecidableEq

/-- One CV segment as produced by the segmentation step. -/
structure Seg where
  sectionName : String
  text : String
deriving DecidableEq

/-- External collaborators of the section scorer: the regression model
prediction, the grammar checker and the suggestion generator. -/
structure Oracles where
  predictRaw : String → ℚ
  grammar : String → List GrammarError
  suggest : String → String → List Suggestion

/-- The external calls the section scorer can make, in source order. -/
inductive ExtCall where
  | predict
  | grammar
  | suggest
deriving DecidableEq

/-- The fixed per-section point budgets (`max_scores` in the source). -/
def max_scores : List (String × ℚ) :=
  [("Personal Info", 10),
   ("Summary", 10),
   ("Skills", 15),
   ("Work Experience", 20),
   ("Education", 10),
   ("Projects", 15),
   ("Certifications", 5),
   ("Languages", 5),
   ("Organizational & Volunteering", 5),
   ("Awards", 5),
   ("Hobbies & Interests", 0)]

/-- Dictionary lookup in the max-score table. -/
def maxScoreOf (s : String) : Option ℚ :=
  (max_scores.find? (fun p => p.1 == s)).map (fun p => p.2)

/-- Sum of the positive budgets (`total_max_score` in the source). -/
def total_max_score : ℚ :=
  ((max_scores.map (fun p => p.2)).filter (fun q => decide (0 < q))).sum

/-- Clamp the raw model prediction to the interval from 0 to 1. -/
def clamp01 (x : ℚ) : ℚ := min (max 0 x) 1

/-- Count of minor errors: type lowercases to grammar or vocabulary. -/
def minorOf (errs : List GrammarError) : ℕ :=
  (errs.filter (fun e =>
    pyLower e.type == ("grammar").toList || pyLower e.type == ("vocabulary").toList)).length

/-- Count of severe errors: type lowercases to syntax. -/
def severeOf (errs : List GrammarError) : ℕ :=
  (errs.filter (fun e => pyLower e.type == ("syntax").toList)).length

/-- Grammar penalty: minor errors cost 0.2 points, severe ones 0.5. -/
def penaltyOf (errs : List GrammarError) : ℚ :=
  (minorOf errs : ℚ) * 0.2 + (severeOf errs : ℚ) * 0.5

/-- Quality label from the unrounded final score and the section budget. -/
def qualityOf (fs ms : ℚ) : String :=
  if ms * 0.75 ≤ fs then "Good" else if 0 < fs then "Weak" else "Missing"

/-- Content score before rounding: clamped prediction times the budget. -/
def rawContent (seg : Seg) (o : Oracles) (ms : ℚ) : ℚ :=
  clamp01 (o.predictRaw seg.text) * ms

/-- Final score before rounding: content minus penalty, floored at 0. -/
def rawFinal (seg : Seg) (o : Oracles) (ms : ℚ) : ℚ :=
  max 0 (rawContent seg o ms - penaltyOf (o.grammar seg.text))

/-- The per-section report of the scoring endpoint. -/
structure SectionReport where
  sectionName : String
  content_score : ℚ
  final_score : ℚ
  minor : ℕ
  severe : ℕ
  grammar_errors_detailed : List GrammarError
  suggestions : List Suggestion
  quality : String
deriving DecidableEq

/-- The report returned for a section name outside the max-score table. -/
def zeroReport (name : String) : SectionReport :=
  { sectionName := name
    content_score := 0
    final_score := 0
    minor := 0
    severe := 0
    grammar_errors_detailed := []
    suggestions := []
    quality := "Missing" }

/-- The report built for a recognized section with budget `ms`. -/
def validReport (seg : Seg) (o : Oracles) (ms : ℚ) : SectionReport :=
  { sectionName := seg.sectionName
    content_score := round2 (rawContent seg o ms)
    final_score := round2 (rawFinal seg o ms)
    minor := minorOf (o.grammar seg.text)
    severe := severeOf (o.grammar seg.text)
    grammar_errors_detailed := o.grammar seg.text
    suggestions := o.suggest seg.sectionName seg.text
    quality := qualityOf (rawFinal seg o ms) ms }

/-- Embedding of `process_section`: alongside the report it records which
external calls were made, in the order the source makes them. -/
def processSection (seg : Seg) (o : Oracles) : SectionReport × List ExtCall :=
  match maxScoreOf seg.sectionName with
  | none => (zeroReport seg.sectionName, [])
  | some ms => (validReport seg o ms, [ExtCall.predict, ExtCall.grammar, ExtCall.suggest])

lemma processSection_valid (seg : Seg) (o : Oracles) (ms : ℚ)
    (h : maxScoreOf seg.sectionName = some ms) :
    processSection seg o =
      (validReport seg o ms, [ExtCall.predict, ExtCall.grammar, ExtCall.suggest]) := by
  unfold processSection
  rw [h]

lemma processSection_invalid (seg : Seg) (o : Oracles)
    (h : maxScoreOf seg.sectionName = none) :
    processSection seg o = (zeroReport seg.sectionName, []) := by
  unfold processSection
  rw [h]

/-! ## Report aggregation (`score_segments`) -/

/-- The aggregate report of the scoring endpoint, scoring fields only. -/
structure CVReport where
  sections : List SectionReport
  total_content_score : ℚ
  total_final_score : ℚ
  content_score_100 : ℚ
  final_score_100 : ℚ
  total_grammar_errors : ℕ
deriving DecidableEq

/-- Sum of the per-section content scores. -/
def totalContent (rs : List SectionReport) : ℚ :=
  (rs.map (fun r => r.content_score)).sum

/-- Sum of the per-section final scores. -/
def totalFinal (rs : List SectionReport) : ℚ :=
  (rs.map (fun r => r.final_score)).sum

/-- Embedding of the aggregation arithmetic of `score_segments`. -/
def score_segments_report (rs : List SectionReport) : CVReport :=
  { sections := rs
    total_content_score := round2 (totalContent rs)
    total_final_score := round2 (totalFinal rs)
    content_score_100 := round2 ((totalContent rs / total_max_score) * 100)
    final_score_100 := round2 ((totalFinal rs / total_max_score) * 100)
    total_grammar_errors := (rs.map (fun r => r.minor + r.severe)).sum }

/-! ## Language-model gateway (`call_gemini_with_fallback`) -/

/-- The character set Python strips first: the three fence characters of
a Markdown code fence, the letters of json, and a newline. -/
def fenceChars : List Char :=
  [Char.ofNat 96, 'j', 's', 'o', 'n', '\n']

/-- Model of Python `str.strip(cs)`: drop characters of the set `cs`
from both ends. -/
def stripListChars (cs l : List Char) : List Char :=
  ((l.dropWhile (fun c => cs.contains c)).reverse.dropWhile (fun c => cs.contains c)).reverse

/-- The fence stripping applied to a successful gateway response. -/
def stripFences (s : String) : String :=
  String.mk (stripListChars [Char.ofNat 96] (stripListChars fenceChars s.toList))

/-- One attempt as the source sees it: an empty response text is turned
into a failure with the fixed message, any other response is kept. -/
def attemptView (r : Except String String) : Except String String :=
  match r with
  | Except.error e => Except.error e
  | Except.ok t => if t = "" then Except.error "Empty response from Gemini API" else Except.ok t

/-- The inner retry loop over the listed attempt indices of one model:
the accumulator carries the last error seen so far. -/
def runAttempts (oracle : ℕ → Except String String) :
    List ℕ → Option String → String ⊕ Option String
  | [], le => Sum.inr le
  | a :: rest, _le =>
    match attemptView (oracle a) with
    | Except.ok t => Sum.inl (stripFences t)
    | Except.error e => runAttempts oracle rest (some e)

/-- The aggregated failure message raised when every model is exhausted. -/
def aggMsg (maxRetries : ℕ) (e : String) : String :=
  "All Gemini models failed after " ++ toString maxRetries ++ " retries. Last error: " ++ e

/-- The outer loop over the model identifiers.  A `none` result models
the implicit return of no value when nothing failed and nothing
succeeded; an error result models the aggregated raise. -/
def goModels (resp : String → ℕ → Except String String) (maxRetries : ℕ) :
    List String → Option String → Option (Except String String)
  | [], le =>
    match le with
    | none => none
    | some e => some (Except.error (aggMsg maxRetries e))
  | m :: ms, le =>
    match runAttempts (resp m) (List.range maxRetries) le with
    | Sum.inl t => some (Except.ok t)
    | Sum.inr le2 => goModels resp maxRetries ms le2

/-- Embedding of `call_gemini_with_fallback` over a response oracle that
maps a model identifier and an attempt index to the remote outcome. -/
def call_gemini_with_fallback (resp : String → ℕ → Except String String)
    (models : List String) (maxRetries : ℕ) : Option (Except String String) :=
  goModels resp maxRetries models none

/-- Embedding of `check_grammar_gemini`: the gateway outcome and the
JSON decoding are oracle inputs; every failure path yields the empty
list. -/
def check_grammar_gemini (decode : String → Option (List GrammarError))
    (gw : Option (Except String String)) (text : String) : List GrammarError :=
  if pyStrip text = "" then []
  else
    match gw with
    | some (Except.ok r) => (decode r).getD []
    | _ => []

/-- Embedding of `get_suggestions_gemini`, shaped like the grammar call. -/
def get_suggestions_gemini (decode : String → Option (List Suggestion))
    (gw : Option (Except String String)) (sectionName text : String) : List Suggestion :=
  if pyStrip text = "" then []
  else
    match gw with
    | some (Except.ok r) => (decode r).getD []
    | _ => []

/-! ## Document structuring helpers (`document.py`) -/

/-- A parsed date; the strptime library call itself is an external
collaborator and is passed in as an oracle. -/
structure DateTime where
  year : Int
  month : Int
  day : Int
deriving DecidableEq

/-- The ordered format list of `parse_date`. -/
def date_formats : List String :=
  ["%Y-%m-%d", "%d/%m/%Y", "%m/%d/%Y", "%B %Y", "%Y"]

/-- Try the formats in order, returning the first successful parse. -/
def tryFormats (strp : String → String → Option DateTime) (s : String) :
    List String → Option DateTime
  | [] => none
  | f :: fs =>
    match strp s f with
    | some d => some d
    | none => tryFormats strp s fs

/-- Embedding of `parse_date`: first matching format, else now. -/
def parse_date (strp : String → String → Option DateTime) (now : DateTime)
    (dateStr : String) : DateTime :=
  (tryFormats strp (pyStrip dateStr) date_formats).getD now

/-- The lowercased words that mark an ongoing end date. -/
def ongoingWords : List (List Char) :=
  [("present").toList, ("current").toList, ("ongoing").toList]

/-- Embedding of `process_date_and_ongoing`: a missing, empty or
ongoing-marking value maps to no date and the ongoing flag. -/
def process_date_and_ongoing (strp : String → String → Option DateTime)
    (now : DateTime) : Option String → Option DateTime × Bool
  | none => (none, true)
  | some s =>
    if s = "" ∨ pyLower s ∈ ongoingWords then (none, true)
    else (some (parse_date strp now s), false)

/-- The fixed domain-to-icon table of `get_social_info`, in source order. -/
def social_icons : List (String × String) :=
  [("github.com", "github"),
   ("linkedin.com", "linkedin"),
   ("facebook.com", "facebook"),
   ("twitter.com", "twitter"),
   ("instagram.com", "instagram"),
   ("youtube.com", "youtube"),
   ("medium.com", "medium"),
   ("dev.to", "dev"),
   ("stackoverflow.com", "stackoverflow"),
   ("behance.net", "behance"),
   ("dribbble.com", "dribbble"),
   ("gitlab.com", "gitlab"),
   ("bitbucket.org", "bitbucket")]

/-- Leading-match test on character lists. -/
def hasPre : List Char → List Char → Bool
  | [], _ => true
  | _ :: _, [] => false
  | a :: as, b :: bs => a == b && hasPre as bs

/-- Substring test on character lists, the model of Python `in`. -/
def subOf (n : List Char) : List Char → Bool
  | [] => n.isEmpty
  | c :: rest => hasPre n (c :: rest) || subOf n rest

/-- Drop a leading www marker. -/
def dropWww (l : List Char) : List Char :=
  if hasPre (("www.").toList) l then l.drop 4 else l

/-- Model of the substitution removing a leading scheme and an optional
www marker right after it; with no scheme nothing is removed. -/
def afterScheme (l : List Char) : List Char :=
  if hasPre (("https://").toList) l then dropWww (l.drop 8)
  else if hasPre (("http://").toList) l then dropWww (l.drop 7)
  else l

/-- Embedding of `get_social_info`: lowercase, clean the scheme, then
return the icon of the first table domain contained in the cleaned link,
keeping the original link text. -/
def get_social_info (link : String) : Option String × Option String :=
  if link = "" then (none, none)
  else
    let clean := afterScheme (link.toList.map Char.toLower)
    match social_icons.find? (fun p => subOf p.1.toList clean) with
    | some p => (some p.2, some link)
    | none => (none, some link)

/-! ## Helper lemmas -/

lemma clamp01_nonneg (x : ℚ) : 0 ≤ clamp01 x := by
  unfold clamp01
  exact le_min (le_max_left 0 x) zero_le_one

lemma penaltyOf_nonneg (errs : List GrammarError) : 0 ≤ penaltyOf errs := by
  unfold penaltyOf
  have h1 : (0 : ℚ) ≤ (minorOf errs : ℚ) := Nat.cast_nonneg _
  have h2 : (0 : ℚ) ≤ (severeOf errs : ℚ) := Nat.cast_nonneg _
  nlinarith

lemma maxScore_nonneg {s : String} {ms : ℚ} (h : maxScoreOf s = some ms) : 0 ≤ ms := by
  unfold maxScoreOf at h
  cases hf : max_scores.find? (fun p => p.1 == s) with
  | none => rw [hf] at h; simp at h
  | some p =>
    rw [hf] at h
    simp only [Option.map_some'] at h
    have hmem : p ∈ max_scores := List.mem_of_find?_eq_some hf
    have hall : ∀ q ∈ max_scores, (0 : ℚ) ≤ q.2 := by decide
    have hp := hall p hmem
    have hms : p.2 = ms := Option.some.inj h
    rw [← hms]
    exact hp

lemma rawContent_nonneg (seg : Seg) (o : Oracles) {ms : ℚ}
    (h : maxScoreOf seg.sectionName = some ms) : 0 ≤ rawContent seg o ms := by
  unfold rawContent
  exact mul_nonneg (clamp01_nonneg _) (maxScore_nonneg h)

lemma rawFinal_nonneg (seg : Seg) (o : Oracles) (ms : ℚ) : 0 ≤ rawFinal seg o ms :=
  le_max_left 0 _

lemma rawFinal_le_rawContent (seg : Seg) (o : Oracles) {ms : ℚ}
    (h : maxScoreOf seg.sectionName = some ms) :
    rawFinal seg o ms ≤ rawContent seg o ms := by
  unfold rawFinal
  have h1 := rawContent_nonneg seg o h
  have h2 := penaltyOf_nonneg (o.grammar seg.text)
  exact max_le h1 (by linarith)

lemma section_final_le_content (seg : Seg) (o : Oracles) :
    (processSection seg o).1.final_score ≤ (processSection seg o).1.content_score := by
  cases h : maxScoreOf seg.sectionName with
  | none =>
    rw [processSection_invalid seg o h]
    simp [zeroReport]
  | some ms =>
    rw [processSection_valid seg o ms h]
    exact round2_mono (rawFinal_le_rawContent seg o h)

lemma total_max_score_eq : total_max_score = 100 := by
  norm_num [total_max_score, max_scores]

lemma tryFormats_append (strp : String → String → Option DateTime) (s : String)
    (l1 : List String) (f : String) (l2 : List String) (d : DateTime)
    (h1 : ∀ g ∈ l1, strp s g = none) (h2 : strp s f = some d) :
    tryFormats strp s (l1 ++ f :: l2) = some d := by
  induction l1 with
  | nil => simp [tryFormats, h2]
  | cons g gs ih =>
    have hg : strp s g = none := h1 g (List.mem_cons_self g gs)
    simp only [List.cons_append, tryFormats, hg]
    exact ih (fun x hx => h1 x (List.mem_cons_of_mem g hx))

lemma tryFormats_none (strp : String → String → Option DateTime) (s : String)
    (l : List String) (h : ∀ g ∈ l, strp s g = none) :
    tryFormats strp s l = none := by
  induction l with
  | nil => rfl
  | cons g gs ih =>
    have hg : strp s g = none := h g (List.mem_cons_self g gs)
    simp only [tryFormats, hg]
    exact ih (fun x hx => h x (List.mem_cons_of_mem g hx))

lemma runAttempts_fail_last (oracle : ℕ → Except String String)
    (l : List ℕ) (a : ℕ) (le : Option String) (ea : String)
    (h1 : ∀ b ∈ l, ∃ e, attemptView (oracle b) = Except.error e)
    (h2 : attemptView (oracle a) = Except.error ea) :
    runAttempts oracle (l ++ [a]) le = Sum.inr (some ea) := by
  induction l generalizing le with
  | nil => simp [runAttempts, h2]
  | cons b bs ih =>
    obtain ⟨e, he⟩ := h1 b (List.mem_cons_self b bs)
    simp only [List.cons_append, runAttempts, he]
    exact ih (some e) (fun x hx => h1 x (List.mem_cons_of_mem b hx))

lemma runAttempts_all_fail (oracle : ℕ → Except String String)
    (l : List ℕ) (le : Option String)
    (h : ∀ b ∈ l, ∃ e, attemptView (oracle b) = Except.error e) :
    ∃ le2, runAttempts oracle l le = Sum.inr le2 := by
  induction l generalizing le with
  | nil => exact ⟨le, rfl⟩
  | cons b bs ih =>
    obtain ⟨e, he⟩ := h b (List.mem_cons_self b bs)
    simp only [runAttempts, he]
    exact ih (some e) (fun x hx => h x (List.mem_cons_of_mem b hx))

lemma runAttempts_success (oracle : ℕ → Except String String)
    (l : List ℕ) (a : ℕ) (rest : List ℕ) (le : Option String) (t : String)
    (h1 : ∀ b ∈ l, ∃ e, attemptView (oracle b) = Except.error e)
    (h2 : attemptView (oracle a) = Except.ok t) :
    runAttempts oracle (l ++ a :: rest) le = Sum.inl (stripFences t) := by
  induction l generalizing le with
  | nil => simp [runAttempts, h2]
  | cons b bs ih =>
    obtain ⟨e, he⟩ := h1 b (List.mem_cons_self b bs)
    simp only [List.cons_append, runAttempts, he]
    exact ih (some e) (fun x hx => h1 x (List.mem_cons_of_mem b hx))

lemma range_split {k n : ℕ} (h : k < n) :
    ∃ rest, List.range n = List.range k ++ k :: rest := by
  induction n with
  | zero => omega
  | succ m ih =>
    rcases Nat.lt_or_ge k m with hk | hk
    · obtain ⟨r, hr⟩ := ih hk
      refine ⟨r ++ [m], ?_⟩
      rw [List.range_succ, hr, List.append_assoc, List.cons_append]
    · have hkm : k = m := by omega
      subst hkm
      exact ⟨[], by simp [List.range_succ]⟩

lemma goModels_skip_failing (resp : String → ℕ → Except String String) (n : ℕ)
    (ms1 rest : List String) (le : Option String)
    (h : ∀ m ∈ ms1, ∀ a, a < n → ∃ e, attemptView (resp m a) = Except.error e) :
    ∃ le2, goModels resp n (ms1 ++ rest) le = goModels resp n rest le2 := by
  induction ms1 generalizing le with
  | nil => exact ⟨le, rfl⟩
  | cons m ms ih =>
    have hm : ∀ b ∈ List.range n, ∃ e, attemptView (resp m b) = Except.error e := by
      intro b hb
      exact h m (List.mem_cons_self m ms) b (List.mem_range.mp hb)
    obtain ⟨le2, hle2⟩ := runAttempts_all_fail (resp m) (List.range n) le hm
    simp only [List.cons_append, goModels, hle2]
    exact ih le2 (fun x hx => h x (List.mem_cons_of_mem m hx))

/-! ## Concrete instances used by the claim theorems -/

/-- A Skills segment; Skills has budget 15. -/
def c1seg : Seg := ⟨"Skills", "some skills text"⟩

/-- An oracle giving the prediction two thirds (content score 10 of 15),
two minor errors and one severe error. -/
def c1oracle : Oracles :=
  { predictRaw := fun _ => 2/3
    grammar := fun _ =>
      [⟨"l1", "Grammar", "d1", "s1"⟩, ⟨"l2", "vocabulary", "d2", "s2"⟩,
       ⟨"l3", "Syntax", "d3", "s3"⟩]
    suggest := fun _ _ => [] }

/-- The zero-budget recognized section. -/
def c2seg : Seg := ⟨"Hobbies & Interests", "hobby text"⟩

/-- An error-free oracle with a maximal prediction. -/
def c2oracle : Oracles :=
  { predictRaw := fun _ => 1, grammar := fun _ => [], suggest := fun _ _ => [] }

/-- A segment whose section name is outside the max-score table. -/
def c3seg : Seg := ⟨"Objective", "career objective text"⟩

/-- An oracle that would report an error and a suggestion if consulted. -/
def c3oracle : Oracles :=
  { predictRaw := fun _ => 1/2
    grammar := fun _ => [⟨"x", "grammar", "d", "s"⟩]
    suggest := fun _ _ => [⟨"i", "s"⟩] }

/-! ## Claim theorems -/

/-- C1: for every recognized section the scorer counts minor errors
(type lowercases to grammar or vocabulary) and severe errors (type
lowercases to syntax), applies the penalty 0.2 per minor and 0.5 per
severe error, floors the final score at 0, and reports both scores
rounded to 2 decimal places; in particular for minor 2, severe 1,
budget 15 and content score 10 the reported final score is 9.1. -/
theorem c1_section_scorer :
    (∀ (seg : Seg) (o : Oracles) (ms : ℚ), maxScoreOf seg.sectionName = some ms →
      (processSection seg o).1.minor =
        (o.grammar seg.text).countP (fun e =>
          pyLower e.type == ("grammar").toList || pyLower e.type == ("vocabulary").toList) ∧
      (processSection seg o).1.severe =
        (o.grammar seg.text).countP (fun e => pyLower e.type == ("syntax").toList) ∧
      (processSection seg o).1.content_score = round2 (rawContent seg o ms) ∧
      (processSection seg o).1.final_score =
        round2 (max 0 (rawContent seg o ms -
          ((minorOf (o.grammar seg.text) : ℚ) * 0.2 +
           (severeOf (o.grammar seg.text) : ℚ) * 0.5)))) ∧
    (processSection c1seg c1oracle).1.minor = 2 ∧
    (processSection c1seg c1oracle).1.severe = 1 ∧
    (processSection c1seg c1oracle).1.content_score = 10 ∧
    (processSection c1seg c1oracle).1.final_score = 91 / 10 := by
  refine ⟨?_, ?_, ?_, ?_, ?_⟩
  · intro seg o ms h
    rw [processSection_valid seg o ms h]
    refine ⟨?_, ?_, rfl, ?_⟩
    · simp [validReport, minorOf, List.countP_eq_length_filter]
    · simp [validReport, severeOf, List.countP_eq_length_filter]
    · simp only [validReport, rawFinal, penaltyOf]
  · decide
  · decide
  · rw [processSection_valid c1seg c1oracle 15 (by decide)]
    simp only [validReport]
    rw [rawContent]
    norm_num [clamp01, c1oracle, round2, roundHE]
  · rw [processSection_valid c1seg c1oracle 15 (by decide)]
    have hm : minorOf (c1oracle.grammar c1seg.text) = 2 := by decide
    have hs : severeOf (c1oracle.grammar c1seg.text) = 1 := by decide
    simp only [validReport]
    rw [rawFinal, rawContent, penaltyOf, hm, hs]
    norm_num [clamp01, c1oracle, round2, roundHE]

/-- Witness for C1: the general part applied to the Skills instance. -/
theorem c1_section_scorer_witness :
    maxScoreOf c1seg.sectionName = some 15 ∧
    (processSection c1seg c1oracle).1.content_score = round2 (rawContent c1seg c1oracle 15) :=
  ⟨by decide, (c1_section_scorer.1 c1seg c1oracle 15 (by decide)).2.2.1⟩

/-- C2 counterexample: the recognized zero-budget section Hobbies &
Interests yields final score 0 but quality Good, because 0 meets the
threshold 0.75 times 0; the claim demands Missing whenever the final
score is 0. -/
theorem c2_quality_counterexample :
    maxScoreOf c2seg.sectionName = some 0 ∧
    (processSection c2seg c2oracle).1.final_score = 0 ∧
    (processSection c2seg c2oracle).1.quality = "Good" ∧
    (processSection c2seg c2oracle).1.quality ≠ "Missing" := by
  have h0 : maxScoreOf c2seg.sectionName = some 0 := by decide
  have hf : rawFinal c2seg c2oracle 0 = 0 := by
    rw [rawFinal, rawContent, penaltyOf]
    norm_num [clamp01, c2oracle, minorOf, severeOf]
  have hq : qualityOf (rawFinal c2seg c2oracle 0) 0 = "Good" := by
    rw [hf, qualityOf, if_pos (by norm_num : (0 : ℚ) * 0.75 ≤ 0)]
  rw [processSection_valid c2seg c2oracle 0 h0]
  refine ⟨h0, ?_, ?_, ?_⟩
  · simp only [validReport]
    rw [hf]
    norm_num [round2, roundHE]
  · simp only [validReport]
    exact hq
  · simp only [validReport]
    rw [hq]
    decide

/-- C2 amended: for every recognized section with a positive budget the
label is Good exactly when the unrounded final score reaches 0.75 times
the budget, Weak exactly when it is strictly between 0 and that
threshold, and Missing exactly when it is 0; for the zero-budget section
a final score of 0 meets the Good threshold and is labelled Good. -/
theorem c2_quality_amended :
    ∀ (seg : Seg) (o : Oracles) (ms : ℚ), maxScoreOf seg.sectionName = some ms → 0 < ms →
      (((processSection seg o).1.quality = "Good" ↔ 0.75 * ms ≤ rawFinal seg o ms) ∧
       ((processSection seg o).1.quality = "Weak" ↔
         0 < rawFinal seg o ms ∧ rawFinal seg o ms < 0.75 * ms) ∧
       ((processSection seg o).1.quality = "Missing" ↔ rawFinal seg o ms = 0)) := by
  intro seg o ms h hms
  rw [processSection_valid seg o ms h]
  simp only [validReport]
  have h0 : 0 ≤ rawFinal seg o ms := rawFinal_nonneg seg o ms
  rw [qualityOf]
  split_ifs with h1 h2
  · refine ⟨⟨fun _ => by linarith, fun _ => rfl⟩, ?_, ?_⟩
    · constructor
      · intro hw
        exact absurd hw (by decide)
      · intro hw
        exfalso
        linarith [hw.2]
    · constructor
      · intro hm
        exact absurd hm (by decide)
      · intro hm0
        exfalso
        rw [hm0] at h1
        linarith
  · refine ⟨?_, ?_, ?_⟩
    · constructor
      · intro hg
        exact absurd hg (by decide)
      · intro hg
        exfalso
        exact h1 (by linarith)
    · exact ⟨fun _ => ⟨h2, by linarith [not_le.mp h1]⟩, fun _ => rfl⟩
    · constructor
      · intro hm
        exact absurd hm (by decide)
      · intro hm0
        exfalso
        linarith
  · have hfs0 : rawFinal seg o ms = 0 := le_antisymm (not_lt.mp h2) h0
    refine ⟨?_, ?_, ⟨fun _ => hfs0, fun _ => rfl⟩⟩
    · constructor
      · intro hg
        exact absurd hg (by decide)
      · intro hg
        exfalso
        rw [hfs0] at hg
        linarith
    · constructor
      · intro hw
        exact absurd hw (by decide)
      · intro hw
        exfalso
        linarith [hw.1]

/-- Witness for the amended C2: the Skills instance is labelled Weak
exactly as the trichotomy describes. -/
theorem c2_quality_amended_witness :
    maxScoreOf c1seg.sectionName = some 15 ∧
    ((processSection c1seg c1oracle).1.quality = "Weak" ↔
      0 < rawFinal c1seg c1oracle 15 ∧ rawFinal c1seg c1oracle 15 < 0.75 * 15) :=
  ⟨by decide, (c2_quality_amended c1seg c1oracle 15 (by decide) (by norm_num)).2.1⟩

/-- C3: a segment whose section name is outside the max-score table gets
the all-zero Missing report, and no external call is recorded. -/
theorem c3_invalid_section :
    ∀ (seg : Seg) (o : Oracles), maxScoreOf seg.sectionName = none →
      processSection seg o =
        ({ sectionName := seg.sectionName
           content_score := 0
           final_score := 0
           minor := 0
           severe := 0
           grammar_errors_detailed := []
           suggestions := []
           quality := "Missing" }, ([] : List ExtCall)) := by
  intro seg o h
  rw [processSection_invalid seg o h]
  rfl

/-- Witness for C3: the Objective section is not in the table and gets
the zero report even though the oracles would have reported content. -/
theorem c3_invalid_section_witness :
    maxScoreOf c3seg.sectionName = none ∧
    processSection c3seg c3oracle =
      ({ sectionName := c3seg.sectionName
         content_score := 0
         final_score := 0
         minor := 0
         severe := 0
         grammar_errors_detailed := []
         suggestions := []
         quality := "Missing" }, ([] : List ExtCall)) :=
  ⟨by decide, c3_invalid_section c3seg c3oracle (by decide)⟩

/-- C4: the gateway walks the model identifiers in priority order with
up to maxRetries attempts each; the first successful non-empty response
is returned immediately with fences stripped, regardless of the models
listed after it; if all listed models fail on all attempts the single
aggregated error carries the error of the very last attempt. -/
theorem c4_gateway_fallback :
    (∀ (resp : String → ℕ → Except String String) (n : ℕ)
       (ms1 : List String) (m : String) (ms2 : List String) (k : ℕ) (t : String),
      (∀ m2 ∈ ms1, ∀ a, a < n → ∃ e, attemptView (resp m2 a) = Except.error e) →
      (∀ a, a < k → ∃ e, attemptView (resp m a) = Except.error e) →
      k < n →
      attemptView (resp m k) = Except.ok t →
      call_gemini_with_fallback resp (ms1 ++ m :: ms2) n = some (Except.ok (stripFences t))) ∧
    (∀ (resp : String → ℕ → Except String String) (n : ℕ)
       (ms1 : List String) (mL : String) (errF : ℕ → String),
      1 ≤ n →
      (∀ m2 ∈ ms1, ∀ a, a < n → ∃ e, attemptView (resp m2 a) = Except.error e) →
      (∀ a, a < n → attemptView (resp mL a) = Except.error (errF a)) →
      call_gemini_with_fallback resp (ms1 ++ [mL]) n =
        some (Except.error (aggMsg n (errF (n - 1))))) ∧
    (∀ (n : ℕ) (e : String),
      aggMsg n e =
        "All Gemini models failed after " ++ toString n ++ " retries. Last error: " ++ e) := by
  refine ⟨?_, ?_, fun n e => rfl⟩
  · intro resp n ms1 m ms2 k t h1 h2 hk hok
    unfold call_gemini_with_fallback
    obtain ⟨le2, hle⟩ := goModels_skip_failing resp n ms1 (m :: ms2) none h1
    rw [hle]
    obtain ⟨rest, hr⟩ := range_split hk
    have hra : runAttempts (resp m) (List.range n) le2 = Sum.inl (stripFences t) := by
      rw [hr]
      exact runAttempts_success (resp m) (List.range k) k rest le2 t
        (fun b hb => h2 b (List.mem_range.mp hb)) hok
    simp only [goModels, hra]
  · intro resp n ms1 mL errF hn h1 h2
    unfold call_gemini_with_fallback
    obtain ⟨le2, hle⟩ := goModels_skip_failing resp n ms1 [mL] none h1
    rw [hle]
    obtain ⟨m2, rfl⟩ : ∃ m2, n = m2 + 1 := ⟨n - 1, by omega⟩
    simp only [Nat.add_sub_cancel]
    have hra : runAttempts (resp mL) (List.range (m2 + 1)) le2 = Sum.inr (some (errF m2)) := by
      rw [List.range_succ]
      exact runAttempts_fail_last (resp mL) (List.range m2) m2 le2 (errF m2)
        (fun b hb => ⟨errF b, h2 b (by have := List.mem_range.mp hb; omega)⟩)
        (h2 m2 (by omega))
    simp only [goModels, hra]

/-- A response oracle whose second model succeeds on its second attempt. -/
def c4resp (m : String) (a : ℕ) : Except String String :=
  if m = "model-b" then
    (if a = 0 then Except.error "first failure" else Except.ok "ok text")
  else Except.error "boom"

/-- A response oracle that always fails, with the attempt index as the
error message. -/
def c4respFail (_m : String) (a : ℕ) : Except String String :=
  Except.error (toString a)

/-- Witness for C4: with two models and two retries, the fallback picks
the second model once the first is exhausted, and with nothing but
failures the aggregated error carries the last attempt's message. -/
theorem c4_gateway_fallback_witness :
    call_gemini_with_fallback c4resp (["model-a"] ++ "model-b" :: []) 2 =
      some (Except.ok (stripFences ("ok text"))) ∧
    call_gemini_with_fallback c4respFail (["model-a"] ++ ["model-b"]) 2 =
      some (Except.error (aggMsg 2 (toString 1))) := by
  have hstepA : ∀ a, attemptView (c4resp "model-a" a) = Except.error "boom" := by
    intro a
    unfold c4resp
    rw [if_neg (by decide : ¬ ("model-a" : String) = "model-b")]
    rfl
  constructor
  · refine c4_gateway_fallback.1 c4resp 2 ["model-a"] "model-b" [] 1 "ok text" ?_ ?_
      (by omega) ?_
    · intro m2 hm2 a ha
      have hm : m2 = "model-a" := by simpa using hm2
      subst hm
      exact ⟨"boom", hstepA a⟩
    · intro a ha
      have ha0 : a = 0 := by omega
      subst ha0
      refine ⟨"first failure", ?_⟩
      unfold c4resp
      rw [if_pos rfl, if_pos rfl]
      rfl
    · unfold c4resp
      rw [if_pos rfl, if_neg (by decide : ¬ (1 : ℕ) = 0)]
      show (if ("ok text" : String) = "" then Except.error "Empty response from Gemini API"
            else Except.ok "ok text") = Except.ok ("ok text")
      rw [if_neg (by decide : ¬ ("ok text" : String) = "")]
  · refine c4_gateway_fallback.2.1 c4respFail 2 ["model-a"] "model-b"
      (fun a => toString a) (by omega) ?_ (fun a _ => rfl)
    intro m2 hm2 a ha
    exact ⟨toString a, rfl⟩

/-- C5: a gateway failure, a missing gateway result, or an undecodable
response makes the grammar and suggestion adapters return the empty
list, and a section whose adapters returned empty lists still gets a
full report with the model score intact and no penalty applied. -/
theorem c5_degrade_to_empty :
    (∀ (decode : String → Option (List GrammarError)) (gw : Option (Except String String))
       (text : String),
      (gw = none ∨ (∃ e, gw = some (Except.error e)) ∨
        (∃ r, gw = some (Except.ok r) ∧ decode r = none)) →
      check_grammar_gemini decode gw text = []) ∧
    (∀ (decode : String → Option (List Suggestion)) (gw : Option (Except String String))
       (sectionName text : String),
      (gw = none ∨ (∃ e, gw = some (Except.error e)) ∨
        (∃ r, gw = some (Except.ok r) ∧ decode r = none)) →
      get_suggestions_gemini decode gw sectionName text = []) ∧
    (∀ (seg : Seg) (o : Oracles) (ms : ℚ), maxScoreOf seg.sectionName = some ms →
      o.grammar seg.text = [] → o.suggest seg.sectionName seg.text = [] →
      (processSection seg o).1.grammar_errors_detailed = [] ∧
      (processSection seg o).1.suggestions = [] ∧
      (processSection seg o).1.minor = 0 ∧
      (processSection seg o).1.severe = 0 ∧
      (processSection seg o).1.content_score = round2 (rawContent seg o ms) ∧
      (processSection seg o).1.final_score = round2 (rawContent seg o ms)) := by
  refine ⟨?_, ?_, ?_⟩
  · intro decode gw text h
    unfold check_grammar_gemini
    split_ifs with ht
    · rfl
    · rcases h with rfl | ⟨e, rfl⟩ | ⟨r, rfl, hd⟩
      · rfl
      · rfl
      · simp [hd]
  · intro decode gw sectionName text h
    unfold get_suggestions_gemini
    split_ifs with ht
    · rfl
    · rcases h with rfl | ⟨e, rfl⟩ | ⟨r, rfl, hd⟩
      · rfl
      · rfl
      · simp [hd]
  · intro seg o ms h hg hs
    have hc : 0 ≤ rawContent seg o ms := rawContent_nonneg seg o h
    have hfinal : rawFinal seg o ms = rawContent seg o ms := by
      rw [rawFinal, hg]
      have hpen : penaltyOf [] = 0 := by norm_num [penaltyOf, minorOf, severeOf]
      rw [hpen, sub_zero]
      exact max_eq_right hc
    rw [processSection_valid seg o ms h]
    refine ⟨hg, hs, ?_, ?_, rfl, ?_⟩
    · show minorOf (o.grammar seg.text) = 0
      rw [hg]
      rfl
    · show severeOf (o.grammar seg.text) = 0
      rw [hg]
      rfl
    · show round2 (rawFinal seg o ms) = round2 (rawContent seg o ms)
      rw [hfinal]

/-- Witness for C5: both adapters return the empty list on a missing
gateway result. -/
theorem c5_degrade_to_empty_witness :
    check_grammar_gemini (fun _ => none) (none : Option (Except String String)) ("abc") = [] ∧
    get_suggestions_gemini (fun _ => none) (none : Option (Except String String))
      ("Skills") ("abc") = [] :=
  ⟨c5_degrade_to_empty.1 (fun _ => none) none ("abc") (Or.inl rfl),
   c5_degrade_to_empty.2.1 (fun _ => none) none ("Skills") ("abc") (Or.inl rfl)⟩

/-- C6: date parsing tries the five format patterns in the fixed order
and returns the first match; when none matches it returns the current
timestamp (it is a total function, so it never raises); and an end date
that lowercases to present, current or ongoing maps to no date with the
ongoing flag set. -/
theorem c6_date_parsing :
    date_formats = ["%Y-%m-%d", "%d/%m/%Y", "%m/%d/%Y", "%B %Y", "%Y"] ∧
    (∀ (strp : String → String → Option DateTime) (now : DateTime) (s : String)
       (l1 : List String) (f : String) (l2 : List String) (d : DateTime),
      date_formats = l1 ++ f :: l2 →
      (∀ g ∈ l1, strp (pyStrip s) g = none) →
      strp (pyStrip s) f = some d →
      parse_date strp now s = d) ∧
    (∀ (strp : String → String → Option DateTime) (now : DateTime) (s : String),
      (∀ g ∈ date_formats, strp (pyStrip s) g = none) →
      parse_date strp now s = now) ∧
    (∀ (strp : String → String → Option DateTime) (now : DateTime) (e : String),
      pyLower e ∈ ongoingWords →
      process_date_and_ongoing strp now (some e) = (none, true)) := by
  refine ⟨rfl, ?_, ?_, ?_⟩
  · intro strp now s l1 f l2 d hsplit h1 h2
    unfold parse_date
    rw [hsplit, tryFormats_append strp (pyStrip s) l1 f l2 d h1 h2]
    rfl
  · intro strp now s h
    unfold parse_date
    rw [tryFormats_none strp (pyStrip s) date_formats h]
    rfl
  · intro strp now e h
    simp only [process_date_and_ongoing]
    rw [if_pos (Or.inr h)]

/-- Witness for C6: the Present marker maps to the ongoing pair, the
first format matching wins, and an unparseable string falls back to the
provided current timestamp. -/
theorem c6_date_parsing_witness :
    pyLower ("Present") ∈ ongoingWords ∧
    process_date_and_ongoing (fun _ _ => none) ⟨2025, 1, 1⟩ (some ("Present")) = (none, true) ∧
    parse_date (fun _ _ => none) ⟨2025, 1, 1⟩ ("N/A") = ⟨2025, 1, 1⟩ :=
  ⟨by decide,
   c6_date_parsing.2.2.2 (fun _ _ => none) ⟨2025, 1, 1⟩ ("Present") (by decide),
   c6_date_parsing.2.2.1 (fun _ _ => none) ⟨2025, 1, 1⟩ ("N/A") (fun g _ => rfl)⟩

/-- C7: the positive budgets of the max-score table sum to exactly 100,
Hobbies & Interests has budget 0, and consequently the aggregated
100-point scores equal the unscaled sums for every list of section
reports. -/
theorem c7_budget_and_scale :
    total_max_score = 100 ∧
    maxScoreOf ("Hobbies & Interests") = some 0 ∧
    (∀ rs : List SectionReport,
      (score_segments_report rs).content_score_100 =
        (score_segments_report rs).total_content_score ∧
      (score_segments_report rs).final_score_100 =
        (score_segments_report rs).total_final_score) := by
  refine ⟨total_max_score_eq, by decide, ?_⟩
  intro rs
  simp only [score_segments_report, total_max_score_eq]
  constructor
  · rw [div_mul_cancel₀ (totalContent rs) (by norm_num : (100 : ℚ) ≠ 0)]
  · rw [div_mul_cancel₀ (totalFinal rs) (by norm_num : (100 : ℚ) ≠ 0)]

/-- C8: icon resolution keeps the original link verbatim; a resolved
icon always comes from the fixed table, whose domain occurs in the
lowercased, scheme-stripped link, and a missing icon means no table
domain occurs there; the canonical github profile resolves to the
github icon. -/
lemma get_social_info_eq (link : String) (hl : link ≠ "") :
    get_social_info link =
      ((social_icons.find? (fun p =>
          subOf p.1.toList (afterScheme (link.toList.map Char.toLower)))).map
        (fun p => p.2), some link) := by
  unfold get_social_info
  rw [if_neg hl]
  cases hf : social_icons.find?
      (fun p => subOf p.1.toList (afterScheme (link.toList.map Char.toLower))) with
  | some p =>
    simp only [String.toList] at hf
    simp [hf]
  | none =>
    simp only [String.toList] at hf
    simp [hf]

theorem c8_social_icon :
    (∀ link : String, link ≠ "" →
      (get_social_info link).2 = some link ∧
      (∀ i, (get_social_info link).1 = some i →
        ∃ d, (d, i) ∈ social_icons ∧
          subOf d.toList (afterScheme (link.toList.map Char.toLower)) = true) ∧
      ((get_social_info link).1 = none →
        ∀ p ∈ social_icons,
          subOf p.1.toList (afterScheme (link.toList.map Char.toLower)) = false)) ∧
    get_social_info ("https://www.github.com/alice") =
      (some ("github"), some ("https://www.github.com/alice")) := by
  constructor
  · intro link hl
    rw [get_social_info_eq link hl]
    refine ⟨rfl, ?_, ?_⟩
    · intro i hi
      cases hf : social_icons.find?
          (fun p => subOf p.1.toList (afterScheme (link.toList.map Char.toLower))) with
      | some p =>
        rw [hf] at hi
        have hpi : p.2 = i := by simpa using hi
        have hmem : p ∈ social_icons := List.mem_of_find?_eq_some hf
        have hsub := List.find?_some hf
        refine ⟨p.1, ?_, ?_⟩
        · rw [← hpi]
          simpa using hmem
        · simpa using hsub
      | none =>
        rw [hf] at hi
        simp at hi
    · intro hnone p hp
      cases hf : social_icons.find?
          (fun q => subOf q.1.toList (afterScheme (link.toList.map Char.toLower))) with
      | some q =>
        rw [hf] at hnone
        simp at hnone
      | none =>
        have := List.find?_eq_none.mp hf p hp
        simpa using this
  · decide

/-- Witness for C8: the github example discharges the nonempty-link
hypothesis of the general statement. -/
theorem c8_social_icon_witness :
    ("https://www.github.com/alice" : String) ≠ "" ∧
    (get_social_info ("https://www.github.com/alice")).2 =
      some ("https://www.github.com/alice") :=
  ⟨by decide, (c8_social_icon.1 ("https://www.github.com/alice") (by decide)).1⟩

/-- C9: every section report has its final score bounded by its content
score, and the aggregated totals and 100-point scores preserve the
bound. -/
theorem c9_final_le_content :
    (∀ (seg : Seg) (o : Oracles),
      (processSection seg o).1.final_score ≤ (processSection seg o).1.content_score) ∧
    (∀ (segs : List Seg) (o : Oracles),
      (score_segments_report (segs.map (fun s => (processSection s o).1))).total_final_score ≤
        (score_segments_report (segs.map (fun s => (processSection s o).1))).total_content_score ∧
      (score_segments_report (segs.map (fun s => (processSection s o).1))).final_score_100 ≤
        (score_segments_report (segs.map (fun s => (processSection s o).1))).content_score_100) := by
  refine ⟨section_final_le_content, ?_⟩
  intro segs o
  have hsum : totalFinal (segs.map (fun s => (processSection s o).1)) ≤
      totalContent (segs.map (fun s => (processSection s o).1)) := by
    unfold totalFinal totalContent
    apply List.sum_le_sum
    intro r hr
    obtain ⟨s, hs, rfl⟩ := List.mem_map.mp hr
    exact section_final_le_content s o
  constructor
  · simp only [score_segments_report]
    exact round2_mono hsum
  · simp only [score_segments_report, total_max_score_eq]
    rw [div_mul_cancel₀ (totalFinal (segs.map (fun s => (processSection s o).1)))
        (by norm_num : (100 : ℚ) ≠ 0),
      div_mul_cancel₀ (totalContent (segs.map (fun s => (processSection s o).1)))
        (by norm_num : (100 : ℚ) ≠ 0)]
    exact round2_mono hsum

/-- C10: the end-date processing returns the ongoing pair for a missing
value, the empty string and the ongoing markers, and parses every other
non-empty string as a date with the ongoing flag cleared. -/
theorem c10_ongoing_defaults :
    (∀ (strp : String → String → Option DateTime) (now : DateTime),
      process_date_and_ongoing strp now none = (none, true)) ∧
    (∀ (strp : String → String → Option DateTime) (now : DateTime),
      process_date_and_ongoing strp now (some ("")) = (none, true)) ∧
    (∀ (strp : String → String → Option DateTime) (now : DateTime) (s : String),
      pyLower s ∈ ongoingWords →
      process_date_and_ongoing strp now (some s) = (none, true)) ∧
    (∀ (strp : String → String → Option DateTime) (now : DateTime) (s : String),
      s ≠ "" → pyLower s ∉ ongoingWords →
      process_date_and_ongoing strp now (some s) = (some (parse_date strp now s), false)) := by
  refine ⟨fun strp now => rfl, ?_, ?_, ?_⟩
  · intro strp now
    simp only [process_date_and_ongoing]
    rw [if_pos (Or.inl trivial)]
  · intro strp now s h
    simp only [process_date_and_ongoing]
    rw [if_pos (Or.inr h)]
  · intro strp now s h1 h2
    simp only [process_date_and_ongoing]
    rw [if_neg]
    intro hc
    rcases hc with hc | hc
    · exact h1 hc
    · exact h2 hc

/-- Witness for C10: an ordinary date string is parsed with the ongoing
flag cleared. -/
theorem c10_ongoing_defaults_witness :
    ("2021-05-01" : String) ≠ "" ∧
    pyLower ("2021-05-01") ∉ ongoingWords ∧
    process_date_and_ongoing (fun _ _ => none) ⟨2025, 1, 1⟩ (some ("2021-05-01")) =
      (some (parse_date (fun _ _ => none) ⟨2025, 1, 1⟩ ("2021-05-01")), false) :=
  ⟨by decide, by decide,
   c10_ongoing_defaults.2.2.2 (fun _ _ => none) ⟨2025, 1, 1⟩ ("2021-05-01")
     (by decide) (by decide)⟩

end CVMaker
